import Mathlib

/-!
Shallow embedding of `concepts.py` (the `concepts-inference` knowledge
representation engine): constraints, concepts, frame schemas, possible
worlds, a Kripke structure with breadth-first reachable-extension queries,
and frame-instance validation.

Python scalar values are modelled by the inductive `Value`; Python `dict`s
are modelled as insertion-ordered association lists (`alookup` / `ainsert`
reproduce `d[k]` and `d[k] = v`).  Python exceptions are modelled by the
`Except PyErr` monad; fallible constructors return `Except`.  Numeric
bounds are modelled over `Int` (the claims under study only exercise
integer bounds; the `float('inf')` defaults of `IntRange.__init__` are
never used by them).  Python `bool` is a subclass of `int`, so boolean
values count as numeric with values 0 and 1, and `True == 1`: equality
used by `in` / set operations is `pyEq` below, which compares values
through the canonical form `pyKey`.
-/

/-- A Python value as used by the engine: numbers, strings, booleans,
and attribute dictionaries.  Dictionaries are unhashable. -/
inductive Value where
  | int (n : Int)
  | str (s : String)
  | bool (b : Bool)
  | dict (ps : List (String × Value))
deriving Repr

mutual

def Value.decEq : (a b : Value) → Decidable (a = b)
  | .int a, .int b =>
    if h : a = b then isTrue (by rw [h]) else isFalse (fun g => by cases g; exact h rfl)
  | .str a, .str b =>
    if h : a = b then isTrue (by rw [h]) else isFalse (fun g => by cases g; exact h rfl)
  | .bool a, .bool b =>
    if h : a = b then isTrue (by rw [h]) else isFalse (fun g => by cases g; exact h rfl)
  | .dict a, .dict b =>
    match Value.decEqList a b with
    | isTrue h => isTrue (by rw [h])
    | isFalse h => isFalse (fun g => by cases g; exact h rfl)
  | .int _, .str _ => isFalse nofun
  | .int _, .bool _ => isFalse nofun
  | .int _, .dict _ => isFalse nofun
  | .str _, .int _ => isFalse nofun
  | .str _, .bool _ => isFalse nofun
  | .str _, .dict _ => isFalse nofun
  | .bool _, .int _ => isFalse nofun
  | .bool _, .str _ => isFalse nofun
  | .bool _, .dict _ => isFalse nofun
  | .dict _, .int _ => isFalse nofun
  | .dict _, .str _ => isFalse nofun
  | .dict _, .bool _ => isFalse nofun

def Value.decEqList : (a b : List (String × Value)) → Decidable (a = b)
  | [], [] => isTrue rfl
  | [], _ :: _ => isFalse nofun
  | _ :: _, [] => isFalse nofun
  | (k1, v1) :: r1, (k2, v2) :: r2 =>
    match String.decEq k1 k2, Value.decEq v1 v2, Value.decEqList r1 r2 with
    | isTrue hk, isTrue hv, isTrue hr => isTrue (by rw [hk, hv, hr])
    | isFalse hk, _, _ => isFalse (fun g => by cases g; exact hk rfl)
    | _, isFalse hv, _ => isFalse (fun g => by cases g; exact hv rfl)
    | _, _, isFalse hr => isFalse (fun g => by cases g; exact hr rfl)

end

instance : DecidableEq Value := Value.decEq

instance {ε α : Type} [DecidableEq ε] [DecidableEq α] : DecidableEq (Except ε α) := by
  intro a b
  cases a <;> cases b
  case error.error e1 e2 =>
    exact if h : e1 = e2 then isTrue (by rw [h]) else isFalse (fun g => by cases g; exact h rfl)
  case ok.ok v1 v2 =>
    exact if h : v1 = v2 then isTrue (by rw [h]) else isFalse (fun g => by cases g; exact h rfl)
  case error.ok e v => exact isFalse nofun
  case ok.error v e => exact isFalse nofun

/-- Canonical form implementing Python `==` on scalars: `True == 1` and
`False == 0` because `bool` is an `int` subclass. -/
def pyKey : Value → Value
  | .bool b => .int (if b then 1 else 0)
  | v => v

/-- Python equality (`==`) on values. -/
def pyEq (a b : Value) : Bool := decide (pyKey a = pyKey b)

/-- Python hashability: dictionaries are unhashable; `in` on a set raises
`TypeError` for them. -/
def Value.hashable : Value → Bool
  | .dict _ => false
  | _ => true

/-- `isinstance(value, (int, float))`: booleans are numeric in Python. -/
def Value.isNumeric : Value → Bool
  | .int _ => true
  | .bool _ => true
  | _ => false

/-- The numeric value of a numeric `Value` (booleans count as 0/1). -/
def Value.toNumber : Value → Int
  | .int n => n
  | .bool b => if b then 1 else 0
  | _ => 0

/-- `d[k]` on a Python dict modelled as an association list. -/
def alookup {α : Type} : List (String × α) → String → Option α
  | [], _ => none
  | (k, v) :: rest, key => if k = key then some v else alookup rest key

/-- `d[k] = v` on a Python dict: replace in place, else append. -/
def ainsert {α : Type} : List (String × α) → String → α → List (String × α)
  | [], key, v => [(key, v)]
  | (k, w) :: rest, key, v =>
    if k = key then (key, v) :: rest else (k, w) :: ainsert rest key v

/-- Python exceptions raised by the engine.  `argumentMismatch` and
`typeViolation` are the structured contents of the two `ValueError`s
raised by `FrameInstance._validate`. -/
inductive PyErr where
  | valueError (msg : String)
  | typeError (msg : String)
  | argumentMismatch (required provided : List String)
  | typeViolation (roleVar uid conceptName : String)
  | keyError (k : String)
deriving Repr, DecidableEq

/-- A scalar constraint: `IntRange`, `ValueSet` or `AnyValue` from
`concepts.py`.  The variants carry the fields of the Python classes;
the validating constructors are `IntRange.make` / `ValueSet.make`. -/
inductive Constraint where
  | intRange (min_val max_val : Int)
  | valueSet (allowed : List Value)
  | anyValue
deriving Repr, DecidableEq

/-- `IntRange.__init__`: raises `ValueError` when `min_val > max_val`. -/
def IntRange.make (min_val max_val : Int) : Except PyErr Constraint :=
  if min_val > max_val then
    .error (.valueError ("Minimum value cannot be greater than maximum value"))
  else
    .ok (.intRange min_val max_val)

/-- `ValueSet.__init__`: raises `ValueError` on an empty set. -/
def ValueSet.make (allowed : List Value) : Except PyErr Constraint :=
  if allowed.isEmpty then
    .error (.valueError ("Set of allowed values cannot be empty"))
  else
    .ok (.valueSet allowed)

/-- `Constraint.check`.  `IntRange` accepts numeric values inside the
interval and rejects everything else; `ValueSet` performs `value in
self.allowed`, which raises `TypeError` when `value` is unhashable;
`AnyValue` accepts everything. -/
def Constraint.check : Constraint → Value → Except PyErr Bool
  | .intRange lo hi, v =>
    .ok (v.isNumeric && decide (lo ≤ v.toNumber) && decide (v.toNumber ≤ hi))
  | .valueSet s, v =>
    if v.hashable then .ok (s.any (fun x => pyEq v x))
    else .error (.typeError ("unhashable type"))
  | .anyValue, _ => .ok true

/-- `Constraint.implies`: interval inclusion for ranges, subset for sets,
everything implies `AnyValue`, cross-variant comparisons are `False`, and
`AnyValue.implies` is `isinstance(other, AnyValue)`. -/
def Constraint.implies : Constraint → Constraint → Bool
  | .intRange l1 h1, .intRange l2 h2 => decide (l1 ≥ l2) && decide (h1 ≤ h2)
  | .intRange _ _, .anyValue => true
  | .intRange _ _, _ => false
  | .valueSet s1, .valueSet s2 => s1.all (fun v => s2.any (fun x => pyEq v x))
  | .valueSet _, .anyValue => true
  | .valueSet _, _ => false
  | .anyValue, .anyValue => true
  | .anyValue, _ => false

/-- `Constraint.intersect`.  `IntRange` and `ValueSet` raise `TypeError`
unless the other operand has the same variant, and build the result with
the validating constructor (so a derived empty range or empty set raises
`ValueError`); `AnyValue.intersect` returns the other operand. -/
def Constraint.intersect : Constraint → Constraint → Except PyErr Constraint
  | .intRange l1 h1, .intRange l2 h2 => IntRange.make (max l1 l2) (min h1 h2)
  | .intRange _ _, _ =>
    .error (.typeError ("Cannot intersect constraints of different types"))
  | .valueSet s1, .valueSet s2 =>
    ValueSet.make (s1.filter (fun v => s2.any (fun x => pyEq v x)))
  | .valueSet _, _ =>
    .error (.typeError ("Cannot intersect constraints of different types"))
  | .anyValue, other => .ok other

/-- `AtomicConcept`: an attribute name and a constraint. -/
structure AtomicConcept where
  name : String
  constraint : Constraint
deriving Repr, DecidableEq

/-- A `BaseConcept` is either an `AtomicConcept` or a `CompositeConcept`
(a name plus an insertion-ordered mapping from attribute name to atomic
concept, as built by `CompositeConcept.__init__`). -/
inductive BaseConcept where
  | atomic (a : AtomicConcept)
  | composite (name : String) (attributes : List (String × AtomicConcept))
deriving Repr, DecidableEq

/-- The `name` attribute of either concept class. -/
def BaseConcept.name : BaseConcept → String
  | .atomic a => a.name
  | .composite n _ => n

/-- `AtomicConcept.check`: delegates to the constraint on the whole
`data` value (`self.constraint.check(data)` — there is no key lookup). -/
def AtomicConcept.check (a : AtomicConcept) (v : Value) : Except PyErr Bool :=
  a.constraint.check v

/-- The attribute loop of `CompositeConcept.check`: every declared
attribute must be present in the data dict and its atom must accept the
looked-up value; a raising atom check propagates. -/
def checkAttrs : List (String × AtomicConcept) → List (String × Value) → Except PyErr Bool
  | [], _ => .ok true
  | (key, atom) :: rest, d =>
    match alookup d key with
    | none => .ok false
    | some v =>
      match atom.check v with
      | .error e => .error e
      | .ok false => .ok false
      | .ok true => checkAttrs rest d

/-- `check` of either concept class: atomic checks the whole value
against its constraint; composite returns `False` on non-dict data and
otherwise runs the attribute loop. -/
def BaseConcept.check : BaseConcept → Value → Except PyErr Bool
  | .atomic a, v => a.check v
  | .composite _ attrs, .dict d => checkAttrs attrs d
  | .composite _ _, _ => .ok false

/-- The merge loop of `BaseConcept.intersect` for a composite `other`:
new keys are appended, shared keys get
`attrs[key].constraint.intersect(atom.constraint)` (self's constraint on
the left). -/
def mergeAttrs : List (String × AtomicConcept) → List (String × AtomicConcept) →
    Except PyErr (List (String × AtomicConcept))
  | acc, [] => .ok acc
  | acc, (key, atom) :: rest =>
    match alookup acc key with
    | none => mergeAttrs (ainsert acc key atom) rest
    | some ex =>
      match ex.constraint.intersect atom.constraint with
      | .error e => .error e
      | .ok c => mergeAttrs (ainsert acc key ⟨key, c⟩) rest

/-- The attribute map a concept contributes when it seeds
`BaseConcept.intersect`: a composite contributes its attributes, an
atomic contributes itself under its own name. -/
def attrsOf : BaseConcept → List (String × AtomicConcept)
  | .composite _ a => a
  | .atomic a => [(a.name, a)]

/-- `BaseConcept.intersect(other, name)`: seeds the attribute map from
`self` (a singleton for an atomic `self`), merges `other` in, and always
returns a `CompositeConcept` named `name`.  Note the constraint operand
order for an atomic `other` is `other.constraint.intersect(self's)`. -/
def BaseConcept.intersect (self other : BaseConcept) (name : String) :
    Except PyErr BaseConcept :=
  match other with
  | .composite _ oattrs =>
    match mergeAttrs (attrsOf self) oattrs with
    | .error e => .error e
    | .ok m => .ok (.composite name m)
  | .atomic o =>
    match alookup (attrsOf self) o.name with
    | none => .ok (.composite name (ainsert (attrsOf self) o.name o))
    | some ex =>
      match o.constraint.intersect ex.constraint with
      | .error e => .error e
      | .ok c => .ok (.composite name (ainsert (attrsOf self) o.name ⟨o.name, c⟩))

/-- `BaseConcept.__and__`: intersect under the derived combination name
(`(a^b)` when the names differ, the shared name otherwise). -/
def conceptAnd (a b : BaseConcept) : Except PyErr BaseConcept :=
  a.intersect b
    (if a.name ≠ b.name then "(" ++ a.name ++ "^" ++ b.name ++ ")" else a.name)

/-- The role tags of the `Role` enum. -/
inductive Role where
  | initiator
  | receiver
  | controller
  | managed
  | gateway
  | timestamp
  | node
deriving Repr, DecidableEq

/-- `FrameArgInfo`: a role-variable name, its role tag, and the concept
required of instances bound to it. -/
structure FrameArgInfo where
  name : String
  role : Role
  type : BaseConcept
deriving Repr, DecidableEq

/-- A `Frame` schema.  Python compares frames and collects
`_intersection` sets by object identity; identity is made explicit as
the `id` field, supplied fresh at construction (the spec's arena-style
reading of the same data).  `ancestry` is the `_intersection` set. -/
structure Frame where
  id : Nat
  name : String
  argsInfo : List (String × FrameArgInfo)
  ancestry : Finset Nat
deriving DecidableEq

/-- `Frame.__init__` builds the `argsInfo` dict keyed by each entry's
`name` and seeds `_intersection` with the frame itself. -/
def Frame.base (id : Nat) (name : String) (args : List FrameArgInfo) : Frame :=
  ⟨id, name, args.foldl (fun acc x => ainsert acc x.name x) [], {id}⟩

/-- The loop of `Frame.intersect` over `other`'s entries whose names are
shared with `self`: the role tags must agree (else `ValueError`), and the
required concept narrows via `info.type & self.argsInfo[info.name].type`. -/
def mergeFrameArgs (selfArgs : List (String × FrameArgInfo)) :
    List (String × FrameArgInfo) → List (String × FrameArgInfo) →
    Except PyErr (List (String × FrameArgInfo))
  | acc, [] => .ok acc
  | acc, (k, info) :: rest =>
    match alookup selfArgs k with
    | none => mergeFrameArgs selfArgs acc rest
    | some selfInfo =>
      if selfInfo.role ≠ info.role then
        .error (.valueError
          ("Cannot intersect concepts: concepts depend on variable with the same name but different roles"))
      else
        match conceptAnd info.type selfInfo.type with
        | .error e => .error e
        | .ok t => mergeFrameArgs selfArgs (ainsert acc k ⟨k, info.role, t⟩) rest

/-- `Frame.intersect(other, name)`: copy `self.argsInfo`, append
`other`'s new keys, narrow the shared ones, and give the result the
union of both `_intersection` sets (the fresh seed `set([res])` made by
`Frame.__init__` is overwritten, so the result is not recorded in its
own ancestry).  `newId` is the fresh identity of the result object. -/
def Frame.intersect (self other : Frame) (newId : Nat) (name : String) :
    Except PyErr Frame :=
  match mergeFrameArgs self.argsInfo
      (self.argsInfo ++ other.argsInfo.filter (fun p => (alookup self.argsInfo p.1).isNone))
      other.argsInfo with
  | .error e => .error e
  | .ok merged => .ok ⟨newId, name, merged, self.ancestry ∪ other.ancestry⟩

/-- `Frame.is_subframe_of`: `other._intersection.issubset(self._intersection)`. -/
def Frame.is_subframe_of (self other : Frame) : Bool :=
  decide (other.ancestry ⊆ self.ancestry)

/-- `ConceptInstance`: a uid and an attribute dict. -/
structure ConceptInstance where
  uid : String
  data : List (String × Value)
deriving Repr, DecidableEq

/-- `concept.check(inst.data)`: the instance dict checked as a value. -/
def checkData (c : BaseConcept) (d : List (String × Value)) : Except PyErr Bool :=
  c.check (Value.dict d)

/-- `PossibleWorld`: a name and a uid-keyed dict of concept instances
(the `frames` list plays no part in the claims under study). -/
structure PossibleWorld where
  name : String
  concepts : List (String × ConceptInstance)
deriving Repr, DecidableEq

/-- `PossibleWorld.add_concept`: insert or overwrite, last write wins. -/
def PossibleWorld.add_concept (w : PossibleWorld) (uid : String)
    (data : List (String × Value)) : PossibleWorld :=
  ⟨w.name, ainsert w.concepts uid ⟨uid, data⟩⟩

/-- The comprehension of `PossibleWorld.get_extension`: instances whose
data satisfies the concept, in insertion order; a raising check
propagates. -/
def extLoop (c : BaseConcept) : List (String × ConceptInstance) →
    Except PyErr (List ConceptInstance)
  | [] => .ok []
  | (_, inst) :: rest =>
    match checkData c inst.data with
    | .error e => .error e
    | .ok true =>
      match extLoop c rest with
      | .error e => .error e
      | .ok l => .ok (inst :: l)
    | .ok false => extLoop c rest

/-- `PossibleWorld.get_extension`. -/
def PossibleWorld.get_extension (w : PossibleWorld) (c : BaseConcept) :
    Except PyErr (List ConceptInstance) :=
  extLoop c w.concepts

/-- `KripkeStructure`: a name-keyed dict of worlds and an adjacency dict
from world name to the ordered list of successor names. -/
structure KripkeStructure where
  worlds : List (String × PossibleWorld)
  accessibility : List (String × List String)
deriving Repr, DecidableEq

/-- `KripkeStructure.add_world`. -/
def KripkeStructure.add_world (ks : KripkeStructure) (w : PossibleWorld) :
    KripkeStructure :=
  ⟨ainsert ks.worlds w.name w, ks.accessibility⟩

/-- `KripkeStructure.add_access`. -/
def KripkeStructure.add_access (ks : KripkeStructure) (f t : String) :
    KripkeStructure :=
  match alookup ks.accessibility f with
  | none => ⟨ks.worlds, ainsert ks.accessibility f [t]⟩
  | some l => ⟨ks.worlds, ainsert ks.accessibility f (l ++ [t])⟩

/-- `self.accessibility.get(name, [])`. -/
def neighbors (ks : KripkeStructure) (w : String) : List String :=
  (alookup ks.accessibility w).getD []

/-- One breadth-first step of `get_reachable_extension`, with an explicit
fuel counter.  The fuel is an embedding device only: the exported
`get_reachable_extension` supplies enough fuel for the loop to finish
(`bfsLoop_enough_fuel` below), so the fuel-exhaustion branch is
unreachable there.  The loop pops the queue head; an already-visited
name is skipped; otherwise the name is marked visited, a registered
world contributes its (non-empty) extension to the results dict, and its
unvisited neighbours are appended to the queue. -/
def bfsLoop (ks : KripkeStructure) (c : BaseConcept) :
    Nat → List String → List String → List (String × List ConceptInstance) →
    Except PyErr (List (String × List ConceptInstance))
  | _, _, [], results => .ok results
  | 0, _, _ :: _, _ => .error (.valueError ("fuel exhausted"))
  | fuel + 1, visited, current :: rest, results =>
    if current ∈ visited then
      bfsLoop ks c fuel visited rest results
    else
      match alookup ks.worlds current with
      | none =>
        bfsLoop ks c fuel (current :: visited)
          (rest ++ (neighbors ks current).filter (fun n => decide (¬ n ∈ current :: visited)))
          results
      | some w =>
        match w.get_extension c with
        | .error e => .error e
        | .ok ext =>
          bfsLoop ks c fuel (current :: visited)
            (rest ++ (neighbors ks current).filter (fun n => decide (¬ n ∈ current :: visited)))
            (if ext.isEmpty then results else results ++ [(current, ext)])

/-- The total number of edge endpoints recorded in the accessibility
dict; one more than this bounds the number of loop iterations. -/
def totalEdges (ks : KripkeStructure) : Nat :=
  (ks.accessibility.map (fun p => p.2.length)).sum

/-- `KripkeStructure.get_reachable_extension(start_world_name, concept)`. -/
def KripkeStructure.get_reachable_extension (ks : KripkeStructure)
    (start : String) (c : BaseConcept) :
    Except PyErr (List (String × List ConceptInstance)) :=
  bfsLoop ks c (1 + totalEdges ks) [] [start] []

/-- One accessibility edge. -/
def stepRel (ks : KripkeStructure) (a b : String) : Prop := b ∈ neighbors ks a

/-- Reachability along accessibility edges (reflexive: the start world
always counts as visited). -/
def Reach (ks : KripkeStructure) (s w : String) : Prop :=
  Relation.ReflTransGen (stepRel ks) s w

/-- Python `set(xs) == set(ys)` on key lists: mutual inclusion. -/
def sameSet (xs ys : List String) : Bool :=
  decide (∀ x ∈ xs, x ∈ ys) && decide (∀ y ∈ ys, y ∈ xs)

/-- The type-checking loop of `FrameInstance._validate`: each binding's
instance data must satisfy the role's required concept, else a
`TypeViolation` `ValueError` carrying the role variable, the instance
uid and the concept name; a raising concept check propagates. -/
def validateArgs (frame : Frame) : List (String × ConceptInstance) → Except PyErr Unit
  | [] => .ok ()
  | (var, inst) :: rest =>
    match alookup frame.argsInfo var with
    | none => .error (.keyError var)
    | some info =>
      match checkData info.type inst.data with
      | .error e => .error e
      | .ok true => validateArgs frame rest
      | .ok false => .error (.typeViolation var inst.uid info.type.name)

/-- `FrameInstance._validate`, run by `FrameInstance.__init__`: the
provided binding keys must equal the schema's role-variable names as
sets (else the `ArgumentMismatch` `ValueError` reporting both sets),
then every binding is type-checked. -/
def FrameInstance.validate (frame : Frame) (args : List (String × ConceptInstance)) :
    Except PyErr Unit :=
  if sameSet (frame.argsInfo.map Prod.fst) (args.map Prod.fst) then
    validateArgs frame args
  else
    .error (.argumentMismatch (frame.argsInfo.map Prod.fst) (args.map Prod.fst))

/-- Modelled from the spec: the reading of `AtomicConcept.check` under
which the constraint is applied to `data[attribute_name]` and a missing
key is a constraint failure.  Compared against the source's
`AtomicConcept.check` (which applies the constraint to the whole data
value) below. -/
def atomicCheckSpec (a : AtomicConcept) (v : Value) : Except PyErr Bool :=
  match v with
  | .dict d =>
    match alookup d a.name with
    | some x => a.constraint.check x
    | none => .ok false
  | _ => .ok false

/-- Equality of constraints as Python values compare them: ranges by
their bounds, enumerations by `pyEq`-membership (set equality),
`AnyValue`s always. -/
def constraintEquiv : Constraint → Constraint → Prop
  | .intRange a b, .intRange a2 b2 => a = a2 ∧ b = b2
  | .valueSet s1, .valueSet s2 =>
    ∀ v : Value, s1.any (fun x => pyEq v x) = s2.any (fun x => pyEq v x)
  | .anyValue, .anyValue => True
  | _, _ => False

/-- Two concepts carry the same attribute map: every attribute name is
present in one iff in the other, with equivalent constraints. -/
def attrMapEquiv (r1 r2 : BaseConcept) : Prop :=
  ∀ k : String,
    match alookup (attrsOf r1) k, alookup (attrsOf r2) k with
    | some a1, some a2 => constraintEquiv a1.constraint a2.constraint
    | none, none => True
    | _, _ => False

/-- Concrete fixtures used by witnesses and counterexamples. -/
def frameA : Frame := Frame.base 0 "A" [⟨"x", .controller, .atomic ⟨"n", .anyValue⟩⟩]

def frameB : Frame := Frame.base 1 "B" [⟨"y", .managed, .atomic ⟨"m", .anyValue⟩⟩]

/-- `frameA & frameB` materialised (identity 2). -/
def frameAB : Frame :=
  ⟨2, "(A^B)",
    [("x", ⟨"x", .controller, .atomic ⟨"n", .anyValue⟩⟩),
     ("y", ⟨"y", .managed, .atomic ⟨"m", .anyValue⟩⟩)], {0, 1}⟩

/-- `frameA & frameB` built a second, independent time (identity 3). -/
def frameABbis : Frame :=
  ⟨3, "other",
    [("x", ⟨"x", .controller, .atomic ⟨"n", .anyValue⟩⟩),
     ("y", ⟨"y", .managed, .atomic ⟨"m", .anyValue⟩⟩)], {0, 1}⟩

/-- `frameAB & frameA` materialised (identity 3): the shared variable
`x` narrows through concept conjunction. -/
def frameABA : Frame :=
  ⟨3, "r",
    [("x", ⟨"x", .controller, .composite "n" [("n", ⟨"n", .anyValue⟩)]⟩),
     ("y", ⟨"y", .managed, .atomic ⟨"m", .anyValue⟩⟩)],
    frameAB.ancestry ∪ frameA.ancestry⟩

/-- Fixture: a composite concept over attribute `p`. -/
def conceptX : BaseConcept := .composite "X" [("p", ⟨"p", .intRange 0 5⟩)]

/-- Fixture: a composite concept over attributes `p` and `q`. -/
def conceptY : BaseConcept :=
  .composite "Y" [("p", ⟨"p", .intRange 3 10⟩), ("q", ⟨"q", .anyValue⟩)]

/-- Fixture: `conceptX & conceptY` materialised. -/
def conceptXY : BaseConcept :=
  .composite "XY" [("p", ⟨"p", .intRange 3 5⟩), ("q", ⟨"q", .anyValue⟩)]

/-- Fixture: `conceptY & conceptX` materialised. -/
def conceptYX : BaseConcept :=
  .composite "YX" [("p", ⟨"p", .intRange 3 5⟩), ("q", ⟨"q", .anyValue⟩)]

/-- Every binding whose role variable resolves in the schema passes its
type check (`check` returned `True`). -/
def bindingsOk (frame : Frame) (args : List (String × ConceptInstance)) : Prop :=
  ∀ p ∈ args, ∀ info, alookup frame.argsInfo p.1 = some info →
    checkData info.type p.2.data = .ok true

/-- Every binding's type check returns a boolean (does not raise). -/
def checksOk (frame : Frame) (args : List (String × ConceptInstance)) : Prop :=
  ∀ p ∈ args, ∀ info, alookup frame.argsInfo p.1 = some info →
    (checkData info.type p.2.data).isOk = true

/-- All attribute values of a data dict are hashable (scalar data). -/
def hashableData (d : List (String × Value)) : Prop :=
  ∀ p ∈ d, Value.hashable p.2 = true

/-- All concept instances of a world carry scalar (hashable) data. -/
def scalarWorld (w : PossibleWorld) : Prop :=
  ∀ p ∈ w.concepts, hashableData p.2.data

/-- All worlds of a Kripke structure carry scalar data. -/
def scalarKS (ks : KripkeStructure) : Prop :=
  ∀ p ∈ ks.worlds, scalarWorld p.2

/-- World `w` is registered and its extension of `c` evaluates to the
non-empty list `e`. -/
def goodE (ks : KripkeStructure) (c : BaseConcept) (w : String)
    (e : List ConceptInstance) : Prop :=
  ∃ pw, alookup ks.worlds w = some pw ∧ pw.get_extension c = .ok e ∧ e ≠ []

/-- The number of edge endpoints leaving names not yet visited; the
breadth-first loop's fuel bound. -/
def unreachedEdges (ks : KripkeStructure) (visited : List String) : Nat :=
  ((ks.accessibility.filter (fun p => decide (¬ p.1 ∈ visited))).map
    (fun p => p.2.length)).sum

/-- Fixture: the role info of `frameP`'s single role variable. -/
def argInfoP : FrameArgInfo :=
  ⟨"x", .managed, .composite "C" [("protocol", ⟨"protocol", .valueSet [Value.str "ZigBee"]⟩)]⟩

/-- Fixture: a one-role frame schema requiring a ZigBee protocol. -/
def frameP : Frame := ⟨0, "P", [("x", argInfoP)], {0}⟩

/-- Fixture: an instance satisfying `argInfoP`'s concept. -/
def instGood : ConceptInstance := ⟨"u2", [("protocol", Value.str "ZigBee")]⟩

/-- Fixture: an instance whose `protocol` value is an (unhashable)
dict, so checking it against the enumeration raises `TypeError`. -/
def instBad : ConceptInstance := ⟨"u1", [("protocol", Value.dict [])]⟩

/-- Fixture: an instance failing `argInfoP`'s concept (wrong protocol). -/
def instWrong : ConceptInstance := ⟨"u3", [("protocol", Value.str "WiFi")]⟩

/-- Fixture: a one-instance world. -/
def worldA : PossibleWorld := ⟨"A", [("a1", ⟨"a1", [("k", Value.int 1)]⟩)]⟩

/-- Fixture: an empty world. -/
def worldB : PossibleWorld := ⟨"B", []⟩

/-- Fixture: a Kripke structure with a registered world `A` (one
instance), a registered empty world `B`, an unregistered name `C`, and a
cycle `A → B → C → A`. -/
def ksW : KripkeStructure :=
  ⟨[("A", worldA), ("B", worldB)], [("A", ["B"]), ("B", ["C"]), ("C", ["A"])]⟩

/-- Fixture: the trivial composite concept (no attributes): true on
every dict. -/
def cAny : BaseConcept := .composite "Any" []

/-- Fixture: the reachable extension of `cAny` from `"A"` in `ksW`. -/
def resW : List (String × List ConceptInstance) :=
  [("A", [⟨"a1", [("k", Value.int 1)]⟩])]

/-! ## Helper lemmas -/

theorem alookup_ainsert {α : Type} (l : List (String × α)) (k : String) (v : α)
    (k2 : String) :
    alookup (ainsert l k v) k2 = if k = k2 then some v else alookup l k2 := by
  induction l with
  | nil => simp [ainsert, alookup]
  | cons p rest ih =>
    obtain ⟨pk, pv⟩ := p
    by_cases hpk : pk = k
    · subst hpk
      simp [ainsert, alookup]
      by_cases hk2 : pk = k2 <;> simp [hk2, alookup]
    · simp [ainsert, hpk, alookup]
      by_cases hk2 : pk = k2
      · subst hk2
        have : ¬ k = pk := fun h => hpk h.symm
        simp [this, alookup]
      · simp [hk2, ih]

theorem alookup_mem {α : Type} (l : List (String × α)) (k : String) (v : α)
    (h : alookup l k = some v) : (k, v) ∈ l := by
  induction l with
  | nil => simp [alookup] at h
  | cons p rest ih =>
    obtain ⟨pk, pv⟩ := p
    by_cases hpk : pk = k
    · subst hpk
      simp [alookup] at h
      simp [h]
    · simp [alookup, hpk] at h
      exact List.mem_cons_of_mem _ (ih h)

theorem alookup_eq_none {α : Type} (l : List (String × α)) (k : String) :
    alookup l k = none ↔ k ∉ l.map Prod.fst := by
  induction l with
  | nil => simp [alookup]
  | cons p rest ih =>
    obtain ⟨pk, pv⟩ := p
    by_cases hpk : pk = k
    · subst hpk
      simp [alookup]
    · have hk : ¬ k = pk := fun h => hpk h.symm
      simp [alookup, hpk, ih, hk]

theorem alookup_isSome {α : Type} (l : List (String × α)) (k : String) :
    (alookup l k).isSome = true ↔ k ∈ l.map Prod.fst := by
  rw [← Decidable.not_iff_not, ← alookup_eq_none]
  cases alookup l k <;> simp

theorem alookup_append {α : Type} (l1 l2 : List (String × α)) (k : String) :
    alookup (l1 ++ l2) k =
      match alookup l1 k with
      | some v => some v
      | none => alookup l2 k := by
  induction l1 with
  | nil => simp [alookup]
  | cons p rest ih =>
    obtain ⟨pk, pv⟩ := p
    by_cases hpk : pk = k <;> simp [alookup, hpk, ih]

/-! ## C1: same-variant constraint intersection -/

/-- C1 (counterexample): intersecting validly constructed `Range`s whose
overlap is empty raises `ValueError` from the `IntRange` constructor, and
intersecting disjoint `Enumeration`s raises `ValueError` from the
`ValueSet` constructor — the claim says neither intersection raises. -/
theorem claim1_counterexample :
    Constraint.intersect (.intRange 0 5) (.intRange 10 20) =
      .error (.valueError ("Minimum value cannot be greater than maximum value")) ∧
    Constraint.intersect (.valueSet [Value.int 1]) (.valueSet [Value.int 2]) =
      .error (.valueError ("Set of allowed values cannot be empty")) := by
  exact ⟨by decide, by decide⟩

/-- C1 (amended): intersecting two validly constructed `Range`s yields
`[max(l1,l2), min(h1,h2)]` when that interval is non-empty and raises
`ValueError` otherwise; intersecting two `Enumeration`s yields their set
intersection when it is non-empty and raises `ValueError` otherwise. -/
theorem claim1_amended (l1 h1 l2 h2 : Int) (hv1 : l1 ≤ h1) (hv2 : l2 ≤ h2)
    (s1 s2 : List Value) (hs1 : s1 ≠ []) (hs2 : s2 ≠ []) :
    (Constraint.intersect (.intRange l1 h1) (.intRange l2 h2) =
      if max l1 l2 ≤ min h1 h2 then .ok (.intRange (max l1 l2) (min h1 h2))
      else .error (.valueError ("Minimum value cannot be greater than maximum value"))) ∧
    (Constraint.intersect (.valueSet s1) (.valueSet s2) =
      if (s1.filter (fun v => s2.any (fun x => pyEq v x))).isEmpty then
        .error (.valueError ("Set of allowed values cannot be empty"))
      else .ok (.valueSet (s1.filter (fun v => s2.any (fun x => pyEq v x))))) := by
  constructor
  · show IntRange.make (max l1 l2) (min h1 h2) = _
    unfold IntRange.make
    by_cases h : max l1 l2 ≤ min h1 h2
    · rw [if_neg (by omega), if_pos h]
    · rw [if_pos (by omega), if_neg h]
  · rfl

theorem claim1_witness :
    Constraint.intersect (.intRange 0 5) (.intRange 3 10) = .ok (.intRange 3 5) ∧
    Constraint.intersect (.valueSet [Value.int 1]) (.valueSet [Value.int 1]) =
      .ok (.valueSet [Value.int 1]) := by
  have h := claim1_amended 0 5 3 10 (by decide) (by decide)
    [Value.int 1] [Value.int 1] (by decide) (by decide)
  simpa using h

/-! ## C2: Unconstrained as identity and top -/

/-- C2 (counterexample): `intersect(a, Unconstrained)` does not return
`a` when `a` is a `Range` — `IntRange.intersect` raises `TypeError` on a
non-`IntRange` operand, `AnyValue` included. -/
theorem claim2_counterexample :
    Constraint.intersect (.intRange 0 1) .anyValue =
      .error (.typeError ("Cannot intersect constraints of different types")) := by
  decide

/-- C2 (amended): `intersect(Unconstrained, a)` returns `a` unchanged
for every constraint `a`, and `a.implies(Unconstrained)` always holds;
but `intersect(a, Unconstrained)` returns `a` only when `a` is itself
`Unconstrained` — for a `Range` or `Enumeration` it raises `TypeError`. -/
theorem claim2_amended (a : Constraint) :
    Constraint.intersect .anyValue a = .ok a ∧
    Constraint.implies a .anyValue = true ∧
    (Constraint.intersect a .anyValue = .ok a ↔ a = .anyValue) := by
  refine ⟨rfl, ?_, ?_⟩ <;> cases a <;> simp [Constraint.implies, Constraint.intersect]

theorem claim2_witness :
    Constraint.intersect .anyValue (.intRange 0 1) = .ok (.intRange 0 1) ∧
    Constraint.implies (.intRange 0 1) .anyValue = true :=
  ⟨(claim2_amended (.intRange 0 1)).1, (claim2_amended (.intRange 0 1)).2.1⟩

/-! ## C3: what Atomic.check applies its constraint to -/

/-- C3 (counterexample): for the atomic concept `battery : Range(0,100)`
and the data `{"battery": 50}`, the claim says `check` is true (the key
is present and the constraint accepts 50), but `AtomicConcept.check`
applies the constraint to the whole dict, which is not numeric, so the
code returns false. -/
theorem claim3_counterexample :
    (BaseConcept.atomic ⟨"battery", .intRange 0 100⟩).check
        (.dict [("battery", Value.int 50)]) = .ok false ∧
    atomicCheckSpec ⟨"battery", .intRange 0 100⟩
        (.dict [("battery", Value.int 50)]) = .ok true := by
  exact ⟨by decide, by decide⟩

/-- C3 (amended): `AtomicConcept.check` applies its constraint directly
to the whole data value — so an atomic concept with a `Range` constraint
is false on every attribute mapping — and the per-key lookup the claim
describes is performed by `CompositeConcept.check`, which looks up each
declared attribute and treats a missing key as failure. -/
theorem claim3_amended :
    (∀ (n : String) (lo hi : Int) (d : List (String × Value)),
      (BaseConcept.atomic ⟨n, .intRange lo hi⟩).check (.dict d) = .ok false) ∧
    (∀ (nm key : String) (atom : AtomicConcept) (d : List (String × Value)),
      (BaseConcept.composite nm [(key, atom)]).check (.dict d) =
        match alookup d key with
        | none => .ok false
        | some v => atom.check v) := by
  constructor
  · intro n lo hi d
    rfl
  · intro nm key atom d
    show checkAttrs [(key, atom)] d = _
    cases hl : alookup d key with
    | none => simp [checkAttrs, hl]
    | some v =>
      cases h : atom.check v with
      | error e => simp [checkAttrs, hl, h]
      | ok b => cases b <;> simp [checkAttrs, hl, h]

/-! ## C5: the ancestry set of a frame intersection -/

theorem frame_intersect_ancestry (f g : Frame) (i : Nat) (n : String) (r : Frame)
    (h : Frame.intersect f g i n = .ok r) :
    r.ancestry = f.ancestry ∪ g.ancestry ∧ r.id = i := by
  unfold Frame.intersect at h
  cases hm : mergeFrameArgs f.argsInfo
      (f.argsInfo ++ g.argsInfo.filter (fun p => (alookup f.argsInfo p.1).isNone))
      g.argsInfo with
  | error e => rw [hm] at h; exact absurd h (by simp)
  | ok m =>
    rw [hm] at h
    cases h
    exact ⟨rfl, rfl⟩

/-- C5 (counterexample): the ancestry set of `frameA & frameB` is
exactly the union `{0, 1}` of the operands' ancestry sets — the result's
own identity 2 is not added (the `set([self])` seed is overwritten), and
a second, independent conjunction of the same operands has the *same*
ancestry set, not a distinct one. -/
theorem claim5_counterexample :
    Frame.intersect frameA frameB 2 "(A^B)" = .ok frameAB ∧
    frameAB.ancestry = {0, 1} ∧
    (2 : Nat) ∉ frameAB.ancestry ∧
    frameAB.ancestry ≠ ({0, 1, 2} : Finset Nat) ∧
    Frame.intersect frameA frameB 3 "other" = .ok frameABbis ∧
    frameABbis.ancestry = frameAB.ancestry := by
  refine ⟨by rfl, by rfl, by decide, ?_, by rfl, by rfl⟩
  intro h
  have h2 : (2 : Nat) ∈ frameAB.ancestry := by rw [h]; decide
  exact absurd h2 (by decide)

/-- C5 (amended): the ancestry set of `f.intersect(g, name)` is the
union of `f`'s and `g`'s ancestry sets — without the identity of the
result itself; consequently two schemas built independently by
conjunction from the same operands have *equal* ancestry sets. -/
theorem claim5_amended (f g : Frame) (i : Nat) (n : String) (r : Frame)
    (h : Frame.intersect f g i n = .ok r) :
    r.ancestry = f.ancestry ∪ g.ancestry ∧
    (∀ (i2 : Nat) (n2 : String) (r2 : Frame),
      Frame.intersect f g i2 n2 = .ok r2 → r2.ancestry = r.ancestry) := by
  refine ⟨(frame_intersect_ancestry f g i n r h).1, ?_⟩
  intro i2 n2 r2 h2
  rw [(frame_intersect_ancestry f g i2 n2 r2 h2).1,
    (frame_intersect_ancestry f g i n r h).1]

theorem claim5_witness :
    frameAB.ancestry = frameA.ancestry ∪ frameB.ancestry ∧
    frameABbis.ancestry = frameAB.ancestry := by
  have h := claim5_amended frameA frameB 2 "(A^B)" frameAB (by rfl)
  exact ⟨h.1, h.2 3 "other" frameABbis (by rfl)⟩

/-! ## C6: subframe testing via ancestry sets -/

/-- C6 (counterexample): for the distinct operands `f = frameA & frameB`
and `g = frameA`, the conjunction `r = f & g` satisfies
`r.is_subframe_of(f)` and `r.is_subframe_of(g)`, but — against the
claim — `f.is_subframe_of(r)` also holds, because `r`'s ancestry set
`{0, 1}` equals `f`'s (the result is not recorded in its own ancestry). -/
theorem claim6_counterexample :
    frameAB ≠ frameA ∧
    Frame.intersect frameAB frameA 3 "r" = .ok frameABA ∧
    frameABA.is_subframe_of frameAB = true ∧
    frameABA.is_subframe_of frameA = true ∧
    frameAB.is_subframe_of frameABA = true := by
  refine ⟨?_, by rfl, by decide, by decide, by decide⟩
  intro h
  have hid := congrArg Frame.id h
  simp [frameAB, frameA, Frame.base] at hid

/-- C6 (amended): `f.is_subframe_of(g)` is true iff `g`'s ancestry set
is a subset of `f`'s; a conjunction `r = f & g` always satisfies
`r.is_subframe_of` of both operands, and an operand `is_subframe_of(r)`
exactly when the other operand's ancestry set is contained in its own —
so for freshly constructed distinct operands neither operand is a
subframe of the result, but for overlapping construction histories one
can be. -/
theorem claim6_amended :
    (∀ p q : Frame, p.is_subframe_of q = true ↔ q.ancestry ⊆ p.ancestry) ∧
    (∀ (f g : Frame) (i : Nat) (n : String) (r : Frame),
      Frame.intersect f g i n = .ok r →
      r.is_subframe_of f = true ∧ r.is_subframe_of g = true ∧
      (f.is_subframe_of r = true ↔ g.ancestry ⊆ f.ancestry) ∧
      (g.is_subframe_of r = true ↔ f.ancestry ⊆ g.ancestry)) := by
  have hiff : ∀ p q : Frame, p.is_subframe_of q = true ↔ q.ancestry ⊆ p.ancestry := by
    intro p q
    simp [Frame.is_subframe_of]
  refine ⟨hiff, ?_⟩
  intro f g i n r h
  have hanc := (frame_intersect_ancestry f g i n r h).1
  refine ⟨?_, ?_, ?_, ?_⟩
  · rw [hiff, hanc]
    exact Finset.subset_union_left
  · rw [hiff, hanc]
    exact Finset.subset_union_right
  · rw [hiff, hanc, Finset.union_subset_iff]
    simp
  · rw [hiff, hanc, Finset.union_subset_iff]
    simp

theorem claim6_witness :
    frameAB.is_subframe_of frameA = true ∧
    frameAB.is_subframe_of frameB = true ∧
    (frameA.is_subframe_of frameAB = true ↔ frameB.ancestry ⊆ frameA.ancestry) ∧
    (frameB.is_subframe_of frameAB = true ↔ frameA.ancestry ⊆ frameB.ancestry) :=
  claim6_amended.2 frameA frameB 2 "(A^B)" frameAB (by rfl)

/-! ## C10: is_subframe_of is a preorder -/

/-- C10: `is_subframe_of` is reflexive on every frame and transitive,
because ancestry-set inclusion is a preorder. -/
theorem claim10_preorder :
    (∀ f : Frame, f.is_subframe_of f = true) ∧
    (∀ f g h : Frame, f.is_subframe_of g = true → g.is_subframe_of h = true →
      f.is_subframe_of h = true) := by
  constructor
  · intro f
    simp [Frame.is_subframe_of]
  · intro f g h hfg hgh
    simp only [Frame.is_subframe_of, decide_eq_true_eq] at *
    exact hgh.trans hfg

theorem claim10_witness :
    frameABA.is_subframe_of frameA = true ∧ frameA.is_subframe_of frameA = true :=
  ⟨claim10_preorder.2 frameABA frameAB frameA (by decide) (by decide),
   claim10_preorder.1 frameA⟩

/-! ## C9: commutativity of concept conjunction -/

theorem pyEq_key {v a : Value} (h : pyEq v a = true) : pyKey v = pyKey a := by
  simpa [pyEq] using h

theorem any_pyEq_congr {v a : Value} (h : pyEq v a = true) (s : List Value) :
    s.any (fun y => pyEq v y) = s.any (fun y => pyEq a y) := by
  have hk := pyEq_key h
  simp [pyEq, hk]

theorem any_pyEq_filter (s1 s2 : List Value) (v : Value) :
    ((s1.filter (fun x => s2.any (fun y => pyEq x y))).any (fun x => pyEq v x)) =
      ((s1.any (fun x => pyEq v x)) && (s2.any (fun x => pyEq v x))) := by
  induction s1 with
  | nil => simp
  | cons a s1 ih =>
    by_cases h2 : s2.any (fun y => pyEq a y) = true
    · by_cases hva : pyEq v a = true
      · have hv2 : s2.any (fun y => pyEq v y) = true := by
          rw [any_pyEq_congr hva]; exact h2
        simp [List.filter_cons, h2, hva, ih, hv2]
      · simp [List.filter_cons, h2, hva, ih,
          Bool.and_comm, Bool.and_left_comm, Bool.or_and_distrib_right]
    · by_cases hva : pyEq v a = true
      · have hv2 : s2.any (fun y => pyEq v y) = false := by
          rw [any_pyEq_congr hva]; simpa using h2
        simp [List.filter_cons, h2, hva, ih, hv2]
      · simp [List.filter_cons, h2, hva, ih]

theorem constraintEquiv_refl (c : Constraint) : constraintEquiv c c := by
  cases c <;> simp [constraintEquiv]

theorem constraint_intersect_comm (c1 c2 r1 r2 : Constraint)
    (h1 : Constraint.intersect c1 c2 = .ok r1)
    (h2 : Constraint.intersect c2 c1 = .ok r2) :
    constraintEquiv r1 r2 := by
  cases c1 with
  | intRange l1 m1 =>
    cases c2 with
    | intRange l2 m2 =>
      simp only [Constraint.intersect, IntRange.make] at h1 h2
      rw [max_comm l2 l1, min_comm m2 m1] at h2
      split_ifs at h1 h2 with hc
      cases h1
      cases h2
      simp [constraintEquiv]
    | valueSet s2 => simp [Constraint.intersect] at h1
    | anyValue => simp [Constraint.intersect] at h1
  | valueSet s1 =>
    cases c2 with
    | intRange l2 m2 => simp [Constraint.intersect] at h1
    | valueSet s2 =>
      simp only [Constraint.intersect, ValueSet.make] at h1 h2
      split_ifs at h1 with he1
      split_ifs at h2 with he2
      cases h1
      cases h2
      intro v
      rw [any_pyEq_filter, any_pyEq_filter, Bool.and_comm]
    | anyValue => simp [Constraint.intersect] at h1
  | anyValue =>
    cases c2 with
    | intRange l2 m2 => simp [Constraint.intersect] at h2
    | valueSet s2 => simp [Constraint.intersect] at h2
    | anyValue =>
      cases h1
      cases h2
      simp [constraintEquiv]

theorem mergeAttrs_lookup :
    ∀ (os acc m : List (String × AtomicConcept)),
    mergeAttrs acc os = .ok m → (os.map Prod.fst).Nodup →
    ∀ k : String,
      (alookup os k = none → alookup m k = alookup acc k) ∧
      (∀ atom, alookup os k = some atom →
        (alookup acc k = none ∧ alookup m k = some atom) ∨
        (∃ ex c, alookup acc k = some ex ∧
          ex.constraint.intersect atom.constraint = .ok c ∧
          alookup m k = some ⟨k, c⟩)) := by
  intro os
  induction os with
  | nil =>
    intro acc m h hnod k
    simp [mergeAttrs] at h
    subst h
    constructor
    · intro _
      rfl
    · intro atom hat
      simp [alookup] at hat
  | cons p rest ih =>
    obtain ⟨k0, atom0⟩ := p
    intro acc m h hnod k
    have hpair : k0 ∉ rest.map Prod.fst ∧ (rest.map Prod.fst).Nodup := by
      have h' : (List.map Prod.fst ((k0, atom0) :: rest)).Nodup := hnod
      rw [List.map_cons, List.nodup_cons] at h'
      exact h'
    unfold mergeAttrs at h
    split at h
    case h_1 h0 =>
      have IH := ih (ainsert acc k0 atom0) m h hpair.2
      by_cases hk : k0 = k
      · subst hk
        constructor
        · intro hn
          simp [alookup] at hn
        · intro atom hat
          simp [alookup] at hat
          subst hat
          left
          refine ⟨h0, ?_⟩
          have hrest : alookup rest k0 = none := (alookup_eq_none rest k0).mpr hpair.1
          rw [(IH k0).1 hrest, alookup_ainsert]
          simp
      · have hacc : alookup (ainsert acc k0 atom0) k = alookup acc k := by
          rw [alookup_ainsert]
          simp [hk]
        constructor
        · intro hn
          simp [alookup, hk] at hn
          rw [(IH k).1 hn, hacc]
        · intro atom hat
          simp [alookup, hk] at hat
          rcases (IH k).2 atom hat with ⟨ha1, ha2⟩ | ⟨ex, c, ha1, ha2, ha3⟩
          · left
            rw [hacc] at ha1
            exact ⟨ha1, ha2⟩
          · right
            rw [hacc] at ha1
            exact ⟨ex, c, ha1, ha2, ha3⟩
    case h_2 ex0 h0 =>
      split at h
      case h_1 e hc =>
        simp at h
      case h_2 c0 hc =>
        have IH := ih (ainsert acc k0 ⟨k0, c0⟩) m h hpair.2
        by_cases hk : k0 = k
        · subst hk
          constructor
          · intro hn
            simp [alookup] at hn
          · intro atom hat
            simp [alookup] at hat
            subst hat
            right
            refine ⟨ex0, c0, h0, hc, ?_⟩
            have hrest : alookup rest k0 = none := (alookup_eq_none rest k0).mpr hpair.1
            rw [(IH k0).1 hrest, alookup_ainsert]
            simp
        · have hacc : alookup (ainsert acc k0 ⟨k0, c0⟩) k = alookup acc k := by
            rw [alookup_ainsert]
            simp [hk]
          constructor
          · intro hn
            simp [alookup, hk] at hn
            rw [(IH k).1 hn, hacc]
          · intro atom hat
            simp [alookup, hk] at hat
            rcases (IH k).2 atom hat with ⟨ha1, ha2⟩ | ⟨ex, c, ha1, ha2, ha3⟩
            · left
              rw [hacc] at ha1
              exact ⟨ha1, ha2⟩
            · right
              rw [hacc] at ha1
              exact ⟨ex, c, ha1, ha2, ha3⟩

theorem intersect_lookup (a b : BaseConcept) (n : String) (r : BaseConcept)
    (hb : ((attrsOf b).map Prod.fst).Nodup)
    (h : BaseConcept.intersect a b n = .ok r) (k : String) :
    (alookup (attrsOf b) k = none → alookup (attrsOf r) k = alookup (attrsOf a) k) ∧
    (∀ atom, alookup (attrsOf b) k = some atom →
      (alookup (attrsOf a) k = none ∧ alookup (attrsOf r) k = some atom) ∨
      (∃ ex c, alookup (attrsOf a) k = some ex ∧
        alookup (attrsOf r) k = some ⟨k, c⟩ ∧
        (ex.constraint.intersect atom.constraint = .ok c ∨
         atom.constraint.intersect ex.constraint = .ok c))) := by
  cases b with
  | composite bn battrs =>
    simp only [BaseConcept.intersect] at h
    split at h
    case h_1 e hm =>
      simp at h
    case h_2 m hm =>
      cases h
      have L := mergeAttrs_lookup battrs (attrsOf a) m hm (by simpa [attrsOf] using hb) k
      constructor
      · intro hn
        exact L.1 (by simpa [attrsOf] using hn)
      · intro atom hat
        rcases L.2 atom (by simpa [attrsOf] using hat) with ⟨ha1, ha2⟩ | ⟨ex, c, ha1, ha2, ha3⟩
        · left
          exact ⟨ha1, by simpa [attrsOf] using ha2⟩
        · right
          exact ⟨ex, c, ha1, by simpa [attrsOf] using ha3, Or.inl ha2⟩
  | atomic o =>
    simp only [BaseConcept.intersect] at h
    split at h
    case h_1 ho =>
      cases h
      by_cases hk : o.name = k
      · subst hk
        constructor
        · intro hn
          simp [attrsOf, alookup] at hn
        · intro atom hat
          simp [attrsOf, alookup] at hat
          subst hat
          left
          refine ⟨ho, ?_⟩
          simp [attrsOf, alookup_ainsert]
      · constructor
        · intro hn
          simp [attrsOf, alookup_ainsert, hk]
        · intro atom hat
          simp [attrsOf, alookup, hk] at hat
    case h_2 ex ho =>
      split at h
      case h_1 e hc =>
        simp at h
      case h_2 c hc =>
        cases h
        by_cases hk : o.name = k
        · subst hk
          constructor
          · intro hn
            simp [attrsOf, alookup] at hn
          · intro atom hat
            simp [attrsOf, alookup] at hat
            subst hat
            right
            refine ⟨ex, c, ho, ?_, Or.inr hc⟩
            simp [attrsOf, alookup_ainsert]
        · constructor
          · intro hn
            simp [attrsOf, alookup_ainsert, hk]
          · intro atom hat
            simp [attrsOf, alookup, hk] at hat

/-- C9 (counterexample): conjunction is not defined for the same pairs
of operands in both orders — `Atomic(n, Range(0,1)) & Atomic(n,
Unconstrained)` succeeds (yielding the range), while the swapped
conjunction raises `TypeError` from `IntRange.intersect`. -/
theorem claim9_counterexample :
    BaseConcept.intersect (.atomic ⟨"n", .intRange 0 1⟩) (.atomic ⟨"n", .anyValue⟩) "n" =
      .ok (.composite "n" [("n", ⟨"n", .intRange 0 1⟩)]) ∧
    BaseConcept.intersect (.atomic ⟨"n", .anyValue⟩) (.atomic ⟨"n", .intRange 0 1⟩) "n" =
      .error (.typeError ("Cannot intersect constraints of different types")) := by
  exact ⟨by decide, by decide⟩

/-- C9 (amended): whenever both `a & b` and `b & a` are defined they
produce composites with the same attribute names mapped to equal
constraints (only the result's name may differ); but the two
conjunctions are not defined for the same pairs of operands — a shared
attribute constrained by `Range` or `Enumeration` on the left and
`Unconstrained` on the right succeeds, while the swapped order raises
`TypeError`. -/
theorem claim9_amended (a b : BaseConcept) (n1 n2 : String) (r1 r2 : BaseConcept)
    (ha : ((attrsOf a).map Prod.fst).Nodup) (hb : ((attrsOf b).map Prod.fst).Nodup)
    (h1 : BaseConcept.intersect a b n1 = .ok r1)
    (h2 : BaseConcept.intersect b a n2 = .ok r2) :
    attrMapEquiv r1 r2 := by
  intro k
  have L1 := intersect_lookup a b n1 r1 hb h1 k
  have L2 := intersect_lookup b a n2 r2 ha h2 k
  cases hbk : alookup (attrsOf b) k with
  | none =>
    cases hak : alookup (attrsOf a) k with
    | none =>
      rw [L1.1 hbk, L2.1 hak, hak, hbk]
      trivial
    | some aatom =>
      rcases L2.2 aatom hak with ⟨hb1, hb2⟩ | ⟨ex, c, hb1, hb2, hb3⟩
      · rw [L1.1 hbk, hak, hb2]
        exact constraintEquiv_refl _
      · rw [hb1] at hbk
        simp at hbk
  | some batom =>
    cases hak : alookup (attrsOf a) k with
    | none =>
      rcases L1.2 batom hbk with ⟨ha1, ha2⟩ | ⟨ex, c, ha1, ha2, ha3⟩
      · rw [ha2, L2.1 hak, hbk]
        exact constraintEquiv_refl _
      · rw [ha1] at hak
        simp at hak
    | some aatom =>
      rcases L1.2 batom hbk with ⟨ha1, ha2⟩ | ⟨ex1, c1, ha1, ha2, ha3⟩
      · rw [ha1] at hak
        simp at hak
      · rcases L2.2 aatom hak with ⟨hb1, hb2⟩ | ⟨ex2, c2, hb1, hb2, hb3⟩
        · rw [hb1] at hbk
          simp at hbk
        · rw [hak] at ha1
          rw [hbk] at hb1
          cases ha1
          cases hb1
          rw [ha2, hb2]
          show constraintEquiv c1 c2
          rcases ha3 with hA | hB
          · rcases hb3 with hC | hD
            · exact constraint_intersect_comm _ _ c1 c2 hA hC
            · rw [hA] at hD
              cases hD
              exact constraintEquiv_refl _
          · rcases hb3 with hC | hD
            · rw [hB] at hC
              cases hC
              exact constraintEquiv_refl _
            · exact constraint_intersect_comm _ _ c1 c2 hB hD

theorem claim9_witness : attrMapEquiv conceptXY conceptYX :=
  claim9_amended conceptX conceptY "XY" "YX" conceptXY conceptYX
    (by decide) (by decide) (by rfl) (by rfl)

/-! ## C8: frame-instance validation -/

theorem validateArgs_cons (frame : Frame) (v : String) (inst : ConceptInstance)
    (rest : List (String × ConceptInstance)) :
    validateArgs frame ((v, inst) :: rest) =
      match alookup frame.argsInfo v with
      | none => .error (.keyError v)
      | some info =>
        match checkData info.type inst.data with
        | .error e => .error e
        | .ok true => validateArgs frame rest
        | .ok false => .error (.typeViolation v inst.uid info.type.name) := rfl

theorem validateArgs_spec (frame : Frame) :
    ∀ args : List (String × ConceptInstance),
    (∀ p ∈ args, (alookup frame.argsInfo p.1).isSome = true) →
    checksOk frame args →
    ((validateArgs frame args = .ok ()) ↔ bindingsOk frame args) ∧
    (¬ bindingsOk frame args →
      ∃ vr u cn, validateArgs frame args = .error (.typeViolation vr u cn)) := by
  intro args
  induction args with
  | nil =>
    intro _ _
    constructor
    · simp [validateArgs, bindingsOk]
    · intro hnb
      exact absurd (by intro p hp; simp at hp) hnb
  | cons p rest ih =>
    obtain ⟨v, inst⟩ := p
    intro hsome hclean
    obtain ⟨info, hinfo⟩ :
        ∃ info, alookup frame.argsInfo v = some info := by
      have := hsome (v, inst) (List.mem_cons_self _ _)
      cases hl : alookup frame.argsInfo v with
      | none => rw [hl] at this; simp at this
      | some i => exact ⟨i, rfl⟩
    have hisok := hclean (v, inst) (List.mem_cons_self _ _) info hinfo
    cases hchk : checkData info.type inst.data with
    | error e => rw [hchk] at hisok; simp [Except.isOk, Except.toBool] at hisok
    | ok b =>
      have hsome2 : ∀ p ∈ rest, (alookup frame.argsInfo p.1).isSome = true :=
        fun p hp => hsome p (List.mem_cons_of_mem _ hp)
      have hclean2 : checksOk frame rest :=
        fun p hp => hclean p (List.mem_cons_of_mem _ hp)
      have IH := ih hsome2 hclean2
      cases b with
      | true =>
        have hhead : bindingsOk frame ((v, inst) :: rest) ↔ bindingsOk frame rest := by
          constructor
          · intro hb p hp
            exact hb p (List.mem_cons_of_mem _ hp)
          · intro hb p hp info2 hinfo2
            rcases List.mem_cons.mp hp with hph | hpr
            · subst hph
              rw [hinfo] at hinfo2
              cases hinfo2
              exact hchk
            · exact hb p hpr info2 hinfo2
        constructor
        · rw [validateArgs_cons]
          simp only [hinfo, hchk]
          rw [IH.1, hhead]
        · intro hnb
          rw [hhead] at hnb
          obtain ⟨vr, u, cn, he⟩ := IH.2 hnb
          refine ⟨vr, u, cn, ?_⟩
          rw [validateArgs_cons]
          simp only [hinfo, hchk]
          exact he
      | false =>
        have hnb : ¬ bindingsOk frame ((v, inst) :: rest) := by
          intro hb
          have := hb (v, inst) (List.mem_cons_self _ _) info hinfo
          rw [hchk] at this
          simp at this
        constructor
        · rw [validateArgs_cons]
          simp only [hinfo, hchk]
          constructor
          · intro he
            simp at he
          · intro hb
            exact absurd hb hnb
        · intro _
          refine ⟨v, inst.uid, info.type.name, ?_⟩
          rw [validateArgs_cons]
          simp only [hinfo, hchk]

/-- C8 (counterexample): with the binding key set exactly matching the
schema (`{"x"}`), validation of an instance whose bound data holds an
unhashable attribute value fails with the propagated `TypeError` from
the enumeration membership test — neither success nor a `TypeViolation`
nor an `ArgumentMismatch`, against the claim's trichotomy. -/
theorem claim8_counterexample :
    sameSet (frameP.argsInfo.map Prod.fst) ([("x", instBad)].map Prod.fst) = true ∧
    FrameInstance.validate frameP [("x", instBad)] =
      .error (.typeError ("unhashable type")) := by
  exact ⟨by decide, by decide⟩

/-- C8 (amended): construction fails with `ArgumentMismatch` iff the
supplied binding keys differ from the schema's role-variable names as
sets; otherwise, provided every binding's type check returns a boolean
(it can instead raise `TypeError` on unhashable data, which propagates),
construction succeeds iff every binding satisfies its role's concept,
and some failing binding yields a `TypeViolation`. -/
theorem claim8_amended (frame : Frame) (args : List (String × ConceptInstance)) :
    (sameSet (frame.argsInfo.map Prod.fst) (args.map Prod.fst) = false →
      FrameInstance.validate frame args =
        .error (.argumentMismatch (frame.argsInfo.map Prod.fst) (args.map Prod.fst))) ∧
    (sameSet (frame.argsInfo.map Prod.fst) (args.map Prod.fst) = true →
      checksOk frame args →
      ((FrameInstance.validate frame args = .ok ()) ↔ bindingsOk frame args) ∧
      (¬ bindingsOk frame args →
        ∃ vr u cn, FrameInstance.validate frame args =
          .error (.typeViolation vr u cn))) := by
  constructor
  · intro hss
    unfold FrameInstance.validate
    rw [hss]
    rfl
  · intro hss hclean
    have hsome : ∀ p ∈ args, (alookup frame.argsInfo p.1).isSome = true := by
      intro p hp
      rw [alookup_isSome]
      have hmem : p.1 ∈ args.map Prod.fst := List.mem_map_of_mem _ hp
      simp only [sameSet, Bool.and_eq_true, decide_eq_true_eq] at hss
      exact hss.2 _ hmem
    have hv : FrameInstance.validate frame args = validateArgs frame args := by
      unfold FrameInstance.validate
      rw [hss]
      rfl
    rw [hv]
    exact validateArgs_spec frame args hsome hclean

theorem claim8_witness :
    FrameInstance.validate frameP [] = .error (.argumentMismatch ["x"] []) ∧
    FrameInstance.validate frameP [("x", instGood)] = .ok () ∧
    FrameInstance.validate frameP [("x", instWrong)] =
      .error (.typeViolation "x" "u3" "C") := by
  have hcleanG : checksOk frameP [("x", instGood)] := by
    intro p hp info hinfo
    simp only [List.mem_singleton] at hp
    subst hp
    have hx : alookup frameP.argsInfo "x" = some argInfoP := rfl
    rw [hx] at hinfo
    cases hinfo
    decide
  have h1 := (claim8_amended frameP []).1 (by decide)
  have h2 := ((claim8_amended frameP [("x", instGood)]).2 (by decide) hcleanG).1
  refine ⟨h1, ?_, by decide⟩
  rw [h2]
  intro p hp info hinfo
  simp only [List.mem_singleton] at hp
  subst hp
  have hx : alookup frameP.argsInfo "x" = some argInfoP := rfl
  rw [hx] at hinfo
  cases hinfo
  decide

/-! ## C7: breadth-first reachable extensions -/

theorem bfsLoop_nil (ks : KripkeStructure) (c : BaseConcept) (fuel : Nat)
    (visited : List String) (results : List (String × List ConceptInstance)) :
    bfsLoop ks c fuel visited [] results = .ok results := by
  cases fuel <;> rfl

theorem bfsLoop_succ_cons (ks : KripkeStructure) (c : BaseConcept) (fuel : Nat)
    (visited : List String) (current : String) (rest : List String)
    (results : List (String × List ConceptInstance)) :
    bfsLoop ks c (fuel + 1) visited (current :: rest) results =
      if current ∈ visited then
        bfsLoop ks c fuel visited rest results
      else
        match alookup ks.worlds current with
        | none =>
          bfsLoop ks c fuel (current :: visited)
            (rest ++ (neighbors ks current).filter (fun n => decide (¬ n ∈ current :: visited)))
            results
        | some w =>
          match w.get_extension c with
          | .error e => .error e
          | .ok ext =>
            bfsLoop ks c fuel (current :: visited)
              (rest ++ (neighbors ks current).filter (fun n => decide (¬ n ∈ current :: visited)))
              (if ext.isEmpty then results else results ++ [(current, ext)]) := rfl

theorem goodE_unique {ks : KripkeStructure} {c : BaseConcept} {w : String}
    {e1 e2 : List ConceptInstance}
    (h1 : goodE ks c w e1) (h2 : goodE ks c w e2) : e1 = e2 := by
  obtain ⟨p1, hp1, he1, _⟩ := h1
  obtain ⟨p2, hp2, he2, _⟩ := h2
  rw [hp1] at hp2
  cases hp2
  rw [he1] at he2
  cases he2
  rfl

theorem alookup_snoc {α : Type} (l : List (String × α)) (k0 : String) (v0 : α)
    (k : String) :
    alookup (l ++ [(k0, v0)]) k =
      match alookup l k with
      | some v => some v
      | none => if k0 = k then some v0 else none := by
  rw [alookup_append]
  cases hl : alookup l k <;> simp [alookup]

theorem reach_absorb (ks : KripkeStructure) (V Q : List String)
    (hclosed : ∀ v ∈ V, ∀ n ∈ neighbors ks v, n ∈ V ∨ n ∈ Q) :
    ∀ v0 w, v0 ∈ V → Reach ks v0 w → w ∈ V ∨ ∃ q ∈ Q, Reach ks q w := by
  intro v0 w hv0 hr
  revert hv0
  induction hr using Relation.ReflTransGen.head_induction_on with
  | refl =>
    intro hw
    exact Or.inl hw
  | head hstep htail ihtail =>
    intro ha
    rcases hclosed _ ha _ hstep with hc | hc
    · exact ihtail hc
    · exact Or.inr ⟨_, hc, htail⟩

theorem zone_step (ks : KripkeStructure) (visited rest : List String) (current : String)
    (hclosed : ∀ w ∈ current :: visited, ∀ n ∈ neighbors ks w,
      n ∈ current :: visited ∨
      n ∈ rest ++ (neighbors ks current).filter (fun n => decide (¬ n ∈ current :: visited)))
    (w : String) :
    ((w ∈ current :: visited ∨
        ∃ q ∈ rest ++ (neighbors ks current).filter
          (fun n => decide (¬ n ∈ current :: visited)), Reach ks q w) ↔
      (w ∈ visited ∨ ∃ q ∈ current :: rest, Reach ks q w)) := by
  constructor
  · rintro (hw | ⟨q, hq, hr⟩)
    · rcases List.mem_cons.mp hw with h | h
      · subst h
        exact Or.inr ⟨w, List.mem_cons_self _ _, Relation.ReflTransGen.refl⟩
      · exact Or.inl h
    · rcases List.mem_append.mp hq with h | h
      · exact Or.inr ⟨q, List.mem_cons_of_mem _ h, hr⟩
      · have hqn : q ∈ neighbors ks current := (List.mem_filter.mp h).1
        exact Or.inr ⟨current, List.mem_cons_self _ _, Relation.ReflTransGen.head hqn hr⟩
  · rintro (hw | ⟨q, hq, hr⟩)
    · exact Or.inl (List.mem_cons_of_mem _ hw)
    · rcases List.mem_cons.mp hq with h | h
      · subst h
        exact reach_absorb ks _ _ hclosed q w (List.mem_cons_self _ _) hr
      · exact Or.inr ⟨q, List.mem_append_left _ h, hr⟩

theorem bfs_step_tail (ks : KripkeStructure) (c : BaseConcept) (fuel : Nat)
    (IH : ∀ (visited queue : List String) (results res : List (String × List ConceptInstance)),
      bfsLoop ks c fuel visited queue results = .ok res →
      (∀ w e, alookup results w = some e ↔ (w ∈ visited ∧ goodE ks c w e)) →
      (∀ w ∈ visited, ∀ n ∈ neighbors ks w, n ∈ visited ∨ n ∈ queue) →
      (results.map Prod.fst).Nodup →
      ((∀ w e, alookup res w = some e ↔
          ((w ∈ visited ∨ ∃ q ∈ queue, Reach ks q w) ∧ goodE ks c w e)) ∧
        (res.map Prod.fst).Nodup))
    (current : String) (visited rest : List String)
    (results1 res : List (String × List ConceptInstance))
    (h : bfsLoop ks c fuel (current :: visited)
      (rest ++ (neighbors ks current).filter (fun n => decide (¬ n ∈ current :: visited)))
      results1 = .ok res)
    (I3 : ∀ w e, alookup results1 w = some e ↔ (w ∈ current :: visited ∧ goodE ks c w e))
    (I4 : ∀ w ∈ current :: visited, ∀ n ∈ neighbors ks w,
      n ∈ current :: visited ∨
      n ∈ rest ++ (neighbors ks current).filter (fun n => decide (¬ n ∈ current :: visited)))
    (I5 : (results1.map Prod.fst).Nodup) :
    ((∀ w e, alookup res w = some e ↔
        ((w ∈ visited ∨ ∃ q ∈ current :: rest, Reach ks q w) ∧ goodE ks c w e)) ∧
      (res.map Prod.fst).Nodup) := by
  have H := IH _ _ _ _ h I3 I4 I5
  refine ⟨?_, H.2⟩
  intro w e
  rw [H.1 w e, zone_step ks visited rest current I4 w]

theorem bfsLoop_spec (ks : KripkeStructure) (c : BaseConcept) :
    ∀ (fuel : Nat) (visited queue : List String)
      (results res : List (String × List ConceptInstance)),
    bfsLoop ks c fuel visited queue results = .ok res →
    (∀ w e, alookup results w = some e ↔ (w ∈ visited ∧ goodE ks c w e)) →
    (∀ w ∈ visited, ∀ n ∈ neighbors ks w, n ∈ visited ∨ n ∈ queue) →
    (results.map Prod.fst).Nodup →
    ((∀ w e, alookup res w = some e ↔
        ((w ∈ visited ∨ ∃ q ∈ queue, Reach ks q w) ∧ goodE ks c w e)) ∧
      (res.map Prod.fst).Nodup) := by
  intro fuel
  induction fuel with
  | zero =>
    intro visited queue results res h I3 I4 I5
    cases queue with
    | nil =>
      rw [bfsLoop_nil] at h
      cases h
      refine ⟨?_, I5⟩
      intro w e
      rw [I3 w e]
      simp
    | cons a t => simp [bfsLoop] at h
  | succ fuel ih =>
    intro visited queue results res h I3 I4 I5
    cases queue with
    | nil =>
      rw [bfsLoop_nil] at h
      cases h
      refine ⟨?_, I5⟩
      intro w e
      rw [I3 w e]
      simp
    | cons current rest =>
      rw [bfsLoop_succ_cons] at h
      by_cases hcv : current ∈ visited
      · rw [if_pos hcv] at h
        have I4' : ∀ w ∈ visited, ∀ n ∈ neighbors ks w, n ∈ visited ∨ n ∈ rest := by
          intro w hw n hn
          rcases I4 w hw n hn with h1 | h1
          · exact Or.inl h1
          · rcases List.mem_cons.mp h1 with h2 | h2
            · exact Or.inl (h2 ▸ hcv)
            · exact Or.inr h2
        have IH := ih visited rest results res h I3 I4' I5
        refine ⟨?_, IH.2⟩
        intro w e
        rw [IH.1 w e]
        constructor
        · rintro ⟨hz, hg⟩
          refine ⟨?_, hg⟩
          rcases hz with h1 | ⟨q, hq, hr⟩
          · exact Or.inl h1
          · exact Or.inr ⟨q, List.mem_cons_of_mem _ hq, hr⟩
        · rintro ⟨hz, hg⟩
          refine ⟨?_, hg⟩
          rcases hz with h1 | ⟨q, hq, hr⟩
          · exact Or.inl h1
          · rcases List.mem_cons.mp hq with h2 | h2
            · subst h2
              exact reach_absorb ks visited rest I4' q w hcv hr
            · exact Or.inr ⟨q, h2, hr⟩
      · rw [if_neg hcv] at h
        have I4' : ∀ w ∈ current :: visited, ∀ n ∈ neighbors ks w,
            n ∈ current :: visited ∨
            n ∈ rest ++ (neighbors ks current).filter
              (fun n => decide (¬ n ∈ current :: visited)) := by
          intro w hw n hn
          rcases List.mem_cons.mp hw with h1 | h1
          · subst h1
            by_cases hnv : n ∈ w :: visited
            · exact Or.inl hnv
            · refine Or.inr (List.mem_append_right _ ?_)
              exact List.mem_filter.mpr ⟨hn, by simpa using hnv⟩
          · rcases I4 w h1 n hn with h2 | h2
            · exact Or.inl (List.mem_cons_of_mem _ h2)
            · rcases List.mem_cons.mp h2 with h3 | h3
              · refine Or.inl ?_
                rw [h3]
                exact List.mem_cons_self _ _
              · exact Or.inr (List.mem_append_left _ h3)
        split at h
        next hw =>
          have I3' : ∀ w e, alookup results w = some e ↔
              (w ∈ current :: visited ∧ goodE ks c w e) := by
            intro w e
            rw [I3 w e]
            constructor
            · rintro ⟨h1, h2⟩
              exact ⟨List.mem_cons_of_mem _ h1, h2⟩
            · rintro ⟨h1, h2⟩
              rcases List.mem_cons.mp h1 with h3 | h3
              · subst h3
                obtain ⟨pw, hpw, _, _⟩ := h2
                rw [hw] at hpw
                simp at hpw
              · exact ⟨h3, h2⟩
          exact bfs_step_tail ks c fuel ih current visited rest results res h I3' I4' I5
        next w' hw =>
          split at h
          next e' hext => simp at h
          next ext hext =>
            by_cases hemp : ext.isEmpty = true
            · rw [if_pos hemp] at h
              have hextnil : ext = [] := by
                cases ext with
                | nil => rfl
                | cons x t => simp [List.isEmpty] at hemp
              have I3' : ∀ w e, alookup results w = some e ↔
                  (w ∈ current :: visited ∧ goodE ks c w e) := by
                intro w e
                rw [I3 w e]
                constructor
                · rintro ⟨h1, h2⟩
                  exact ⟨List.mem_cons_of_mem _ h1, h2⟩
                · rintro ⟨h1, h2⟩
                  rcases List.mem_cons.mp h1 with h3 | h3
                  · subst h3
                    obtain ⟨pw, hpw, hokk, hne⟩ := h2
                    rw [hw] at hpw
                    cases hpw
                    rw [hext] at hokk
                    cases hokk
                    exact absurd hextnil hne
                  · exact ⟨h3, h2⟩
              exact bfs_step_tail ks c fuel ih current visited rest results res h I3' I4' I5
            · rw [if_neg hemp] at h
              have hne : ext ≠ [] := by
                intro hnil
                subst hnil
                simp [List.isEmpty] at hemp
              have hcnotin : current ∉ results.map Prod.fst := by
                intro hmem
                obtain ⟨e0, he0⟩ : ∃ e0, alookup results current = some e0 := by
                  have hs := (alookup_isSome results current).mpr hmem
                  cases hl : alookup results current with
                  | none => rw [hl] at hs; simp at hs
                  | some x => exact ⟨x, rfl⟩
                exact hcv ((I3 current e0).mp he0).1
              have I3' : ∀ w e, alookup (results ++ [(current, ext)]) w = some e ↔
                  (w ∈ current :: visited ∧ goodE ks c w e) := by
                intro w e
                rw [alookup_snoc]
                cases hl : alookup results w with
                | some e0 =>
                  have he0 := (I3 w e0).mp hl
                  constructor
                  · intro hse
                    cases hse
                    exact ⟨List.mem_cons_of_mem _ he0.1, he0.2⟩
                  · rintro ⟨_, hg⟩
                    rw [goodE_unique he0.2 hg]
                | none =>
                  by_cases hcw : current = w
                  · subst hcw
                    rw [if_pos rfl]
                    constructor
                    · intro hse
                      cases hse
                      exact ⟨List.mem_cons_self _ _, ⟨w', hw, hext, hne⟩⟩
                    · rintro ⟨_, hg⟩
                      rw [goodE_unique (⟨w', hw, hext, hne⟩ : goodE ks c current ext) hg]
                  · rw [if_neg hcw]
                    constructor
                    · intro hse
                      simp at hse
                    · rintro ⟨h1, hg⟩
                      rcases List.mem_cons.mp h1 with h3 | h3
                      · exact absurd h3.symm hcw
                      · have := (I3 w e).mpr ⟨h3, hg⟩
                        rw [hl] at this
                        simp at this
              have I5' : (((results ++ [(current, ext)]).map Prod.fst)).Nodup := by
                rw [List.map_append]
                simp [List.nodup_append, I5, hcnotin]
              exact bfs_step_tail ks c fuel ih current visited rest
                (results ++ [(current, ext)]) res h I3' I4' I5'

/-- C7: whenever `get_reachable_extension(s, c)` returns a result, that
result has an entry for world name `w` iff `w` is reachable from `s`
along accessibility edges (with `s` itself counting as visited), `w`
names a registered world, and that world's extension of `c` is
non-empty; the entry's value is that world's `get_extension(c)`, and the
result has at most one entry per world (cycle-safe, names on edges with
no registered world contribute no entry but are traversed without
error). -/
theorem claim7_reachable_extension (ks : KripkeStructure) (s : String)
    (c : BaseConcept) (res : List (String × List ConceptInstance))
    (h : ks.get_reachable_extension s c = .ok res) :
    (∀ w e, alookup res w = some e ↔
      (Reach ks s w ∧
        ∃ pw, alookup ks.worlds w = some pw ∧ pw.get_extension c = .ok e ∧ e ≠ [])) ∧
    (res.map Prod.fst).Nodup := by
  have I3 : ∀ w e, alookup ([] : List (String × List ConceptInstance)) w = some e ↔
      (w ∈ ([] : List String) ∧ goodE ks c w e) := by
    intro w e
    simp [alookup]
  have I4 : ∀ w ∈ ([] : List String), ∀ n ∈ neighbors ks w,
      n ∈ ([] : List String) ∨ n ∈ [s] := by
    intro w hw
    simp at hw
  have H := bfsLoop_spec ks c (1 + totalEdges ks) [] [s] [] res h I3 I4 (by simp)
  refine ⟨?_, H.2⟩
  intro w e
  rw [H.1 w e]
  show ((w ∈ ([] : List String) ∨ ∃ q ∈ [s], Reach ks q w) ∧ goodE ks c w e) ↔ _
  simp only [List.not_mem_nil, false_or, List.mem_singleton, exists_eq_left]
  exact Iff.rfl

theorem claim7_witness :
    (∀ w e, alookup resW w = some e ↔
      (Reach ksW "A" w ∧
        ∃ pw, alookup ksW.worlds w = some pw ∧ pw.get_extension cAny = .ok e ∧ e ≠ [])) ∧
    (resW.map Prod.fst).Nodup :=
  claim7_reachable_extension ksW "A" cAny resW (by rfl)

/-! ## C4: totality of check and the extension queries -/

theorem sumlen_mono (vis : List String) (current : String) :
    ∀ l : List (String × List String),
    ((l.filter (fun p => decide (¬ p.1 ∈ current :: vis))).map (fun p => p.2.length)).sum ≤
      ((l.filter (fun p => decide (¬ p.1 ∈ vis))).map (fun p => p.2.length)).sum := by
  intro l
  induction l with
  | nil => simp
  | cons p rest ih =>
    simp only [List.filter_cons]
    by_cases h1 : p.1 ∈ vis
    · have d1 : decide (¬ p.1 ∈ vis) = false := by simp [h1]
      have d2 : decide (¬ p.1 ∈ current :: vis) = false := by
        simp [List.mem_cons_of_mem _ h1]
      rw [d1, d2, if_neg Bool.false_ne_true, if_neg Bool.false_ne_true]
      exact ih
    · by_cases h2 : p.1 ∈ current :: vis
      · have d1 : decide (¬ p.1 ∈ vis) = true := by simp [h1]
        have d2 : decide (¬ p.1 ∈ current :: vis) = false := by simp [h2]
        rw [d1, d2, if_neg Bool.false_ne_true, if_pos rfl]
        simp only [List.map_cons, List.sum_cons]
        omega
      · have d1 : decide (¬ p.1 ∈ vis) = true := by simp [h1]
        have d2 : decide (¬ p.1 ∈ current :: vis) = true := by simp [h2]
        rw [d1, d2, if_pos rfl, if_pos rfl]
        simp only [List.map_cons, List.sum_cons]
        omega

theorem unreached_visit_aux (vis : List String) (current : String) (hcv : current ∉ vis) :
    ∀ l : List (String × List String),
    ((l.filter (fun p => decide (¬ p.1 ∈ current :: vis))).map (fun p => p.2.length)).sum +
      ((alookup l current).getD []).length ≤
      ((l.filter (fun p => decide (¬ p.1 ∈ vis))).map (fun p => p.2.length)).sum := by
  intro l
  induction l with
  | nil => simp [alookup]
  | cons p rest ih =>
    obtain ⟨k, ns⟩ := p
    simp only [List.filter_cons]
    by_cases hk : k = current
    · subst hk
      have ha : alookup ((k, ns) :: rest) k = some ns := by simp [alookup]
      have d1 : decide (¬ k ∈ vis) = true := by simp [hcv]
      have d2 : decide (¬ k ∈ k :: vis) = false := by simp
      rw [ha, d1, d2, if_neg Bool.false_ne_true, if_pos rfl]
      simp only [List.map_cons, List.sum_cons, Option.getD_some]
      have hm := sumlen_mono vis k rest
      omega
    · have ha : alookup ((k, ns) :: rest) current = alookup rest current := by
        simp [alookup, hk]
      rw [ha]
      by_cases h1 : k ∈ vis
      · have d1 : decide (¬ k ∈ vis) = false := by simp [h1]
        have d2 : decide (¬ k ∈ current :: vis) = false := by
          simp [List.mem_cons_of_mem _ h1]
        rw [d1, d2, if_neg Bool.false_ne_true, if_neg Bool.false_ne_true]
        exact ih
      · have h2 : ¬ k ∈ current :: vis := by
          intro hc
          rcases List.mem_cons.mp hc with h3 | h3
          · exact hk h3
          · exact h1 h3
        have d1 : decide (¬ k ∈ vis) = true := by simp [h1]
        have d2 : decide (¬ k ∈ current :: vis) = true := by simp [h2]
        rw [d1, d2, if_pos rfl, if_pos rfl]
        simp only [List.map_cons, List.sum_cons]
        omega

theorem unreached_visit (ks : KripkeStructure) (vis : List String) (current : String)
    (hcv : current ∉ vis) :
    unreachedEdges ks (current :: vis) + (neighbors ks current).length ≤
      unreachedEdges ks vis :=
  unreached_visit_aux vis current hcv ks.accessibility

theorem unreached_nil (ks : KripkeStructure) : unreachedEdges ks [] = totalEdges ks := by
  unfold unreachedEdges totalEdges
  congr 1
  congr 1
  simp

theorem bfsLoop_isOk (ks : KripkeStructure) (c : BaseConcept)
    (hall : ∀ nm pw, alookup ks.worlds nm = some pw → (pw.get_extension c).isOk = true) :
    ∀ (fuel : Nat) (visited queue : List String)
      (results : List (String × List ConceptInstance)),
    queue.length + unreachedEdges ks visited ≤ fuel →
    (bfsLoop ks c fuel visited queue results).isOk = true := by
  intro fuel
  induction fuel with
  | zero =>
    intro visited queue results hle
    cases queue with
    | nil => rw [bfsLoop_nil]; rfl
    | cons a t =>
      rw [List.length_cons] at hle
      omega
  | succ fuel ih =>
    intro visited queue results hle
    cases queue with
    | nil => rw [bfsLoop_nil]; rfl
    | cons current rest =>
      rw [bfsLoop_succ_cons]
      by_cases hcv : current ∈ visited
      · rw [if_pos hcv]
        apply ih
        rw [List.length_cons] at hle
        omega
      · rw [if_neg hcv]
        have hbound : (rest ++ (neighbors ks current).filter
              (fun n => decide (¬ n ∈ current :: visited))).length +
            unreachedEdges ks (current :: visited) ≤ fuel := by
          rw [List.length_append]
          rw [List.length_cons] at hle
          have hf : ((neighbors ks current).filter
              (fun n => decide (¬ n ∈ current :: visited))).length ≤
              (neighbors ks current).length := List.length_filter_le _ _
          have hv := unreached_visit ks visited current hcv
          omega
        split
        next hw => exact ih _ _ _ hbound
        next w hw =>
          split
          next e hext =>
            have hok := hall current w hw
            rw [hext] at hok
            simp [Except.isOk, Except.toBool] at hok
          next ext hext => exact ih _ _ _ hbound

theorem constraint_check_isOk (c : Constraint) (v : Value) (hv : Value.hashable v = true) :
    (c.check v).isOk = true := by
  cases c <;> simp [Constraint.check, hv, Except.isOk, Except.toBool]

theorem checkAttrs_cons (key : String) (atom : AtomicConcept)
    (rest : List (String × AtomicConcept)) (d : List (String × Value)) :
    checkAttrs ((key, atom) :: rest) d =
      match alookup d key with
      | none => .ok false
      | some v =>
        match atom.check v with
        | .error e => .error e
        | .ok false => .ok false
        | .ok true => checkAttrs rest d := rfl

theorem checkAttrs_isOk (attrs : List (String × AtomicConcept)) (d : List (String × Value))
    (hd : hashableData d) : (checkAttrs attrs d).isOk = true := by
  induction attrs with
  | nil => rfl
  | cons p rest ih =>
    obtain ⟨key, atom⟩ := p
    rw [checkAttrs_cons]
    cases hl : alookup d key with
    | none => rfl
    | some v =>
      have hv : Value.hashable v = true := hd (key, v) (alookup_mem d key v hl)
      have hok : (atom.check v).isOk = true := constraint_check_isOk atom.constraint v hv
      show (match atom.check v with
        | Except.error e => Except.error e
        | Except.ok false => Except.ok false
        | Except.ok true => checkAttrs rest d).isOk = true
      cases hc : atom.check v with
      | error e => rw [hc] at hok; simp [Except.isOk, Except.toBool] at hok
      | ok b => cases b with
        | false => rfl
        | true => exact ih

theorem extLoop_cons (c : BaseConcept) (u : String) (inst : ConceptInstance)
    (rest : List (String × ConceptInstance)) :
    extLoop c ((u, inst) :: rest) =
      match checkData c inst.data with
      | .error e => .error e
      | .ok true =>
        match extLoop c rest with
        | .error e => .error e
        | .ok l => .ok (inst :: l)
      | .ok false => extLoop c rest := rfl

theorem extLoop_isOk (nm : String) (attrs : List (String × AtomicConcept))
    (l : List (String × ConceptInstance))
    (hl : ∀ p ∈ l, hashableData p.2.data) :
    (extLoop (.composite nm attrs) l).isOk = true := by
  induction l with
  | nil => rfl
  | cons p rest ih =>
    obtain ⟨u, inst⟩ := p
    rw [extLoop_cons]
    have hok : (checkData (.composite nm attrs) inst.data).isOk = true :=
      checkAttrs_isOk attrs inst.data (hl (u, inst) (List.mem_cons_self _ _))
    have ih2 := ih (fun p hp => hl p (List.mem_cons_of_mem _ hp))
    cases hc : checkData (.composite nm attrs) inst.data with
    | error e => rw [hc] at hok; simp [Except.isOk, Except.toBool] at hok
    | ok b =>
      cases b with
      | false => exact ih2
      | true =>
        cases he : extLoop (.composite nm attrs) rest with
        | error e => rw [he] at ih2; simp [Except.isOk, Except.toBool] at ih2
        | ok l2 => rfl

/-- C4 (counterexample): `check` is not total over arbitrary data —
checking an `Enumeration` constraint against an unhashable value (a
dict) raises `TypeError` instead of returning `false`, and the error
propagates out of `get_extension` when an atomic enumeration concept is
evaluated against instance data. -/
theorem claim4_counterexample :
    (Constraint.valueSet [Value.str "a"]).check (Value.dict []) =
      .error (.typeError ("unhashable type")) ∧
    PossibleWorld.get_extension ⟨"W", [("u", ⟨"u", [("k", Value.int 0)]⟩)]⟩
        (.atomic ⟨"k", .valueSet [Value.str "a"]⟩) =
      .error (.typeError ("unhashable type")) := by
  exact ⟨by decide, by decide⟩

/-- C4 (amended): `Range` and `Unconstrained` checks are total, and an
`Enumeration` check returns a boolean exactly on hashable values and
raises `TypeError` on unhashable ones (dicts); atomic checks are total
on hashable values, composite checks are total on non-dict values
(returning `false`) and on dicts whose attribute values are hashable;
consequently `get_extension` and `get_reachable_extension` never raise
over composite concepts and worlds holding scalar attribute data. -/
theorem claim4_amended :
    (∀ (lo hi : Int) (v : Value), ((Constraint.intRange lo hi).check v).isOk = true) ∧
    (∀ v : Value, (Constraint.anyValue.check v).isOk = true) ∧
    (∀ (s : List Value) (v : Value),
      ((Constraint.valueSet s).check v).isOk = Value.hashable v) ∧
    (∀ (s : List Value) (v : Value), Value.hashable v = false →
      (Constraint.valueSet s).check v = .error (.typeError ("unhashable type"))) ∧
    (∀ (a : AtomicConcept) (v : Value), Value.hashable v = true →
      ((BaseConcept.atomic a).check v).isOk = true) ∧
    (∀ (nm : String) (attrs : List (String × AtomicConcept)) (v : Value),
      Value.hashable v = true → (BaseConcept.composite nm attrs).check v = .ok false) ∧
    (∀ (nm : String) (attrs : List (String × AtomicConcept)) (d : List (String × Value)),
      hashableData d →
      ((BaseConcept.composite nm attrs).check (Value.dict d)).isOk = true) ∧
    (∀ (w : PossibleWorld) (nm : String) (attrs : List (String × AtomicConcept)),
      scalarWorld w → (w.get_extension (.composite nm attrs)).isOk = true) ∧
    (∀ (ks : KripkeStructure) (s nm : String) (attrs : List (String × AtomicConcept)),
      scalarKS ks →
      (ks.get_reachable_extension s (.composite nm attrs)).isOk = true) := by
  refine ⟨?_, ?_, ?_, ?_, ?_, ?_, ?_, ?_, ?_⟩
  · intro lo hi v
    rfl
  · intro v
    rfl
  · intro s v
    by_cases hv : Value.hashable v = true
    · simp [Constraint.check, hv, Except.isOk, Except.toBool]
    · simp only [Bool.not_eq_true] at hv
      simp [Constraint.check, hv, Except.isOk, Except.toBool]
  · intro s v hv
    simp [Constraint.check, hv]
  · intro a v hv
    exact constraint_check_isOk a.constraint v hv
  · intro nm attrs v hv
    cases v with
    | int n => rfl
    | str s => rfl
    | bool b => rfl
    | dict d => simp [Value.hashable] at hv
  · intro nm attrs d hd
    exact checkAttrs_isOk attrs d hd
  · intro w nm attrs hw
    exact extLoop_isOk nm attrs w.concepts hw
  · intro ks s nm attrs hks
    show (bfsLoop ks (.composite nm attrs) (1 + totalEdges ks) [] [s] []).isOk = true
    apply bfsLoop_isOk
    · intro nm2 pw hpw
      exact extLoop_isOk nm attrs pw.concepts (hks (nm2, pw) (alookup_mem _ _ _ hpw))
    · rw [List.length_singleton, unreached_nil]

theorem claim4_witness :
    scalarKS ksW ∧ (ksW.get_reachable_extension "A" cAny).isOk = true := by
  have hks : scalarKS ksW := by
    unfold scalarKS scalarWorld hashableData
    decide
  exact ⟨hks, claim4_amended.2.2.2.2.2.2.2.2 ksW "A" "Any" [] hks⟩
